import Mathlib

/-!
Shallow embedding of `src/algorithms/offline/pbrl.py` (preference-based
reward learning for offline RL) and verification of its specification.

Modelling conventions:
* A numpy transition dataset is a `Dataset`: parallel lists for
  observations, actions, next observations, rewards and terminals.
  Observation and action rows are rational feature vectors, rewards are
  rationals, terminals are booleans.
* Randomness is passed explicitly: `np.random.randint` draws become a
  `List ℕ` of drawn values, `torch.bernoulli` outcomes become a `List ℚ`
  of sampled 0/1 values.
* File-system effects are explicit: the file system is a lookup function
  and functions return the list of paths they write.
* Real-valued quantities produced by `np.exp`, `softmax`, `log` are
  modelled over `ℝ`.
-/

/-- The transition dataset contract: five parallel sequences, index `i`
refers to the same transition in each. -/
structure Dataset where
  observations : List (List ℚ)
  actions : List (List ℚ)
  next_observations : List (List ℚ)
  rewards : List ℚ
  terminals : List Bool
  deriving DecidableEq

/-- Python `min(list)`: `none` on an empty list (Python raises). -/
def pymin : List ℚ → Option ℚ
  | [] => none
  | x :: xs => some (xs.foldl min x)

/-- Python `max(list)`: `none` on an empty list (Python raises). -/
def pymax : List ℚ → Option ℚ
  | [] => none
  | x :: xs => some (xs.foldl max x)

/-- `scale_rewards` from the source: min-max normalization of the reward
list onto `[-1, 1]` via `x ↦ -1 + 2*(x - min)/(max - min)`, with no guard
on a degenerate range.  Division by zero is the total rational division
(`q / 0 = 0`), standing in for the floating-point NaN/inf the source
would propagate. -/
def scale_rewards (dataset : Dataset) : Option Dataset :=
  match pymin dataset.rewards, pymax dataset.rewards with
  | some min_reward, some max_value =>
      some { dataset with
        rewards := dataset.rewards.map
          (fun x => -1 + 2 * (x - min_reward) / (max_value - min_reward)) }
  | _, _ => none

/-- `get_random_trajectory_reward` from the source.  The stream of
`np.random.randint(0, N - len_t)` draws is the explicit `draws` list; the
rejection loop consumes draws until one yields a window with no terminal
flag, returning the accepted window, its summed reward and the unused
remainder of the stream.  `none` means every supplied draw was rejected
(the source would still be looping). -/
def get_random_trajectory_reward (dataset : Dataset) (len_t : ℕ) :
    List ℕ → Option ((List ℕ × ℚ) × List ℕ)
  | [] => none
  | start :: rest =>
      if ((dataset.terminals.drop start).take len_t).any id then
        get_random_trajectory_reward dataset len_t rest
      else
        some ((List.range' start len_t,
               ((dataset.rewards.drop start).take len_t).sum), rest)

/-- Numpy fancy-index assignment `arr[idxs] = vals` on a rational array:
positions are written left to right, so on duplicate indices the last
write wins.  Out-of-range writes are ignored by `List.set`; theorems add
the in-range hypotheses numpy enforces by raising. -/
def scatter (arr : List ℚ) : List ℕ → List ℚ → List ℚ
  | i :: is, v :: vs => scatter (arr.set i v) is vs
  | _, _ => arr

/-- `np.repeat(xs, n)`: each element repeated `n` times, consecutively. -/
def np_repeat (xs : List ℚ) (n : ℕ) : List ℚ :=
  (xs.map (List.replicate n)).flatten

/-- `bernoulli_trial_one_neg_one` from the source: maps Bernoulli
outcomes in `{0, 1}` to signed labels via `-1 + 2*mu`.  The
`torch.bernoulli(p)` sampling itself is the random input, so the function
receives the drawn outcomes. -/
def bernoulli_trial_one_neg_one (outcomes : List ℚ) : List ℚ :=
  outcomes.map (fun mu => -1 + 2 * mu)

/-- `t1s[sampled].flatten()`: select the sampled rows of a trajectory
array and flatten them row-major. -/
def resampled_indices (ts : List (List ℕ)) (sampled : List ℕ) : List ℕ :=
  (sampled.map (fun i => ts.getD i [])).flatten

/-- `label_by_trajectory_reward` from the source.  `sampled` is the list
of `np.random.randint(0, num_t, size=(num_t,))` draws and `outcomes` the
list of `torch.bernoulli(ps[sampled])` outcomes.  Rewards at the
trajectory-1 indices are overwritten with the repeated signed labels,
rewards at the trajectory-2 indices with their negations (in that order,
as in the source), then every field is subset to the concatenated index
list. -/
def label_by_trajectory_reward (dataset : Dataset)
    (t1s t2s : List (List ℕ)) (len_t : ℕ)
    (sampled : List ℕ) (outcomes : List ℚ) : Dataset :=
  let t1s_indices := resampled_indices t1s sampled
  let t2s_indices := resampled_indices t2s sampled
  let mus := bernoulli_trial_one_neg_one outcomes
  let repeated_mus := np_repeat mus len_t
  let rewards1 := scatter dataset.rewards t1s_indices repeated_mus
  let rewards2 := scatter rewards1 t2s_indices (repeated_mus.map (fun x => -1 * x))
  let all_indices := t1s_indices ++ t2s_indices
  { observations := all_indices.map (fun i => dataset.observations.getD i [])
    actions := all_indices.map (fun i => dataset.actions.getD i [])
    next_observations := all_indices.map (fun i => dataset.next_observations.getD i [])
    rewards := all_indices.map (fun i => rewards2.getD i 0)
    terminals := all_indices.map (fun i => dataset.terminals.getD i false) }

/-- A trajectory pair corpus: the triple `(t1s, t2s, ps)` built by
`generate_pbrl_dataset`. -/
structure PbrlCorpus where
  t1s : List (List ℕ)
  t2s : List (List ℕ)
  ps : List ℝ

/-- The per-pair generation loop inside the fresh branch of
`generate_pbrl_dataset`: for each of `num_t` pairs, sample two
trajectories and record `p = np.exp(r1) / (np.exp(r1) + np.exp(r2))`.
The `draws` list is the shared stream of `np.random.randint` draws. -/
noncomputable def generate_pairs (dataset : Dataset) (len_t : ℕ) :
    ℕ → List ℕ → Option PbrlCorpus
  | 0, _ => some ⟨[], [], []⟩
  | n + 1, draws =>
      match get_random_trajectory_reward dataset len_t draws with
      | none => none
      | some ((t1, r1), draws1) =>
          match get_random_trajectory_reward dataset len_t draws1 with
          | none => none
          | some ((t2, r2), draws2) =>
              match generate_pairs dataset len_t n draws2 with
              | none => none
              | some rest =>
                  some ⟨t1 :: rest.t1s, t2 :: rest.t2s,
                        Real.exp (r1 : ℝ) / (Real.exp (r1 : ℝ) + Real.exp (r2 : ℝ))
                          :: rest.ps⟩

/-- `generate_pbrl_dataset` from the source.  The file system is the
lookup `fs` (composing `os.path.exists` and `np.load`); the second
component of the result is the list of paths passed to `np.savez`.  Note
the source calls `np.savez(pbrl_dataset_file_path, ...)` unconditionally
in the fresh-generation branch, even when the path is the default empty
string. -/
noncomputable def generate_pbrl_dataset (dataset : Dataset) (num_t : ℕ)
    (pbrl_dataset_file_path : String) (len_t : ℕ)
    (fs : String → Option PbrlCorpus) (draws : List ℕ) :
    Option (PbrlCorpus × List String) :=
  if pbrl_dataset_file_path ≠ "" ∧ (fs pbrl_dataset_file_path).isSome then
    (fs pbrl_dataset_file_path).map (fun c => (c, []))
  else
    (generate_pairs dataset len_t num_t draws).map
      (fun c => (c, [pbrl_dataset_file_path]))

/-- Softmax over a size-2 axis, `torch.nn.functional.softmax(_, dim=1)`
restricted to one row of two entries. -/
noncomputable def softmax2 (a b : ℝ) : ℝ × ℝ :=
  (Real.exp a / (Real.exp a + Real.exp b),
   Real.exp b / (Real.exp a + Real.exp b))

/-- `nn.CrossEntropyLoss` on a single 2-way row: the input entries are
treated as LOGITS, so the loss is minus the log of the softmax of the
input at the target class. -/
noncomputable def cross_entropy_loss2 (z0 z1 : ℝ) (target : Bool) : ℝ :=
  -Real.log (if target then (softmax2 z0 z1).2 else (softmax2 z0 z1).1)

/-- Cross-entropy between an already-formed 2-way distribution
`(q0, q1)` and a binary target, as the specification words it: minus the
log of the predicted probability of the target class. -/
noncomputable def spec_cross_entropy2 (q0 q1 : ℝ) (target : Bool) : ℝ :=
  -Real.log (if target then q1 else q0)

/-- `model(X).view(num_t, 2, len_t, -1)` followed by
`torch.sum(_, dim=2)`: the summed latent reward of segment `j` of pair
`i`, where `modelOut` gives the model output on each flattened feature
row. -/
noncomputable def latent_r_sum (modelOut : ℕ → ℝ) (len_t i j : ℕ) : ℝ :=
  ∑ t ∈ Finset.range len_t, modelOut ((i * 2 + j) * len_t + t)

/-- The loss computed by one epoch of `train_latent`:
`p = softmax(latent_r_sum, dim=1)` and then
`nn.CrossEntropyLoss()(p.view(-1, 2), mus)` with mean reduction — note
the softmax probabilities are passed where `CrossEntropyLoss` expects
logits. -/
noncomputable def train_latent_epoch_loss (modelOut : ℕ → ℝ)
    (num_t len_t : ℕ) (mus : ℕ → Bool) : ℝ :=
  (∑ i ∈ Finset.range num_t,
      cross_entropy_loss2
        (softmax2 (latent_r_sum modelOut len_t i 0)
                  (latent_r_sum modelOut len_t i 1)).1
        (softmax2 (latent_r_sum modelOut len_t i 0)
                  (latent_r_sum modelOut len_t i 1)).2
        (mus i)) / num_t

/-- The loss the specification describes for one epoch: cross-entropy
between the softmax preference distribution of the summed segment
rewards and the binary target (mean reduction). -/
noncomputable def spec_epoch_loss (modelOut : ℕ → ℝ)
    (num_t len_t : ℕ) (mus : ℕ → Bool) : ℝ :=
  (∑ i ∈ Finset.range num_t,
      spec_cross_entropy2
        (softmax2 (latent_r_sum modelOut len_t i 0)
                  (latent_r_sum modelOut len_t i 1)).1
        (softmax2 (latent_r_sum modelOut len_t i 0)
                  (latent_r_sum modelOut len_t i 1)).2
        (mus i)) / num_t

/-- A saved model checkpoint: `epoch` plus the model parameter state.
The parameter state is an abstract type `M` (the network internals are an
external capability). -/
structure Checkpoint (M : Type) where
  model_state_dict : M
  epoch : ℕ

/-- `load_model` from the source: build a fresh `LatentRewardModel` and
apply the stored state dict, which overwrites every parameter, so the
resulting parameters are exactly the stored ones; return them with the
stored epoch. -/
def load_model {M : Type} (checkpoint : Checkpoint M) : M × ℕ :=
  (checkpoint.model_state_dict, checkpoint.epoch)

/-- The epoch loop of `train_latent` on an abstract parameter state `M`:
`step` is one gradient update for the fixed feature batch, `lossOf` the
loss value before the update.  Every 50 epochs the loss is compared with
the best seen (initially `none`, standing for `float(\x27inf\x27)`): on
improvement the patience counter resets, otherwise it increments, and the
loop breaks once it reaches `patience`.  Structural recursion on the
remaining epoch count. -/
def train_loop {M : Type} (step : M → M) (lossOf : M → ℚ) (patience : ℕ) :
    ℕ → ℕ → M → Option ℚ → ℕ → M
  | 0, _, model, _, _ => model
  | fuel + 1, epoch, model, best_loss, current_patience =>
      let total_loss := lossOf model
      let model1 := step model
      if (epoch + 1) % 50 = 0 then
        if (match best_loss with
            | none => true
            | some b => decide (total_loss < b)) then
          train_loop step lossOf patience fuel (epoch + 1) model1
            (some total_loss) 0
        else
          if current_patience + 1 ≥ patience then model1
          else train_loop step lossOf patience fuel (epoch + 1) model1
            best_loss (current_patience + 1)
      else
        train_loop step lossOf patience fuel (epoch + 1) model1
          best_loss current_patience

/-- `train_latent` from the source, control flow around the loop: if a
checkpoint file exists it is loaded, and training short-circuits only
when its stored epoch satisfies `epoch + 1 == n_epochs`; in every other
case the loaded parameters are dropped by the reassignment
`model = LatentRewardModel()` and the loop starts from the fresh
initialization `fresh_init`.  `checkpoint_fs` models
`os.path.exists(model_file_path)` plus `torch.load`; `indices` is the
third component of `make_latent_reward_dataset`. -/
def train_latent {M : Type} (checkpoint_fs : Option (Checkpoint M))
    (n_epochs : ℕ) (fresh_init : M) (step : M → M) (lossOf : M → ℚ)
    (patience : ℕ) (indices : List ℕ) : M × List ℕ :=
  match checkpoint_fs with
  | some checkpoint =>
      let loaded := load_model checkpoint
      if loaded.2 + 1 = n_epochs then (loaded.1, indices)
      else (train_loop step lossOf patience n_epochs 0 fresh_init none 0, indices)
  | none => (train_loop step lossOf patience n_epochs 0 fresh_init none 0, indices)

/-- `predict_and_label_latent_reward` from the source: build the
observation-action feature rows at `indices`, run the model on each row
(a `List ℚ → ℚ` function, inference under `torch.no_grad`), subset every
field to `indices` and replace the reward field with the model outputs. -/
def predict_and_label_latent_reward (dataset : Dataset)
    (latent_reward_model : List ℚ → ℚ) (indices : List ℕ) : Dataset :=
  let obs_values := indices.map (fun i => dataset.observations.getD i [])
  let act_values := indices.map (fun i => dataset.actions.getD i [])
  let latent_reward_X := (obs_values.zip act_values).map (fun oa => oa.1 ++ oa.2)
  let latent_rewards := latent_reward_X.map latent_reward_model
  { observations := indices.map (fun i => dataset.observations.getD i [])
    actions := indices.map (fun i => dataset.actions.getD i [])
    next_observations := indices.map (fun i => dataset.next_observations.getD i [])
    rewards := latent_rewards
    terminals := indices.map (fun i => dataset.terminals.getD i false) }

/-! ### Concrete instances used to exercise the functions -/

/-- A terminal-free dataset with four transitions. -/
def dsNoTerm : Dataset where
  observations := [[1, 0], [2, 0], [3, 0], [4, 0]]
  actions := [[10], [20], [30], [40]]
  next_observations := [[2, 0], [3, 0], [4, 0], [5, 0]]
  rewards := [1, 2, 3, 4]
  terminals := [false, false, false, false]

/-- The same transitions as `dsNoTerm` but with a different reward field. -/
def dsAltRewards : Dataset :=
  { dsNoTerm with rewards := [9, 9, 9, 9] }

/-- A dataset in which every transition is terminal, so no terminal-free
window of positive length exists. -/
def dsAllTerm : Dataset where
  observations := [[1], [2], [3], [4]]
  actions := [[0], [0], [0], [0]]
  next_observations := [[2], [3], [4], [5]]
  rewards := [1, 1, 1, 1]
  terminals := [true, true, true, true]

/-- A dataset in which every reward is equal, the degenerate case for
min-max reward scaling. -/
def dsConstReward : Dataset where
  observations := [[1], [2], [3]]
  actions := [[0], [0], [0]]
  next_observations := [[2], [3], [4]]
  rewards := [5, 5, 5]
  terminals := [false, false, false]

/-- The corpus `generate_pbrl_dataset` produces on `dsNoTerm` with
`num_t = 1`, `len_t = 2` and the draw stream `[0, 0]`: both trajectories
are the window `[0, 1]` with summed reward `3`. -/
noncomputable def corpusW : PbrlCorpus :=
  ⟨[[0, 1]], [[0, 1]],
   [Real.exp ((3 : ℚ) : ℝ) / (Real.exp ((3 : ℚ) : ℝ) + Real.exp ((3 : ℚ) : ℝ))]⟩

/-- A concrete per-row model output: `0` on row `0`, `1` on every other
row.  With `num_t = len_t = 1` the two segment sums are `0` and `1`. -/
noncomputable def c1_model : ℕ → ℝ :=
  fun n => if n = 0 then 0 else 1

/-! ### Shared helper lemmas about the list operations -/

theorem scatter_length (idxs : List ℕ) : ∀ (vals arr : List ℚ),
    (scatter arr idxs vals).length = arr.length := by
  induction idxs with
  | nil => intro vals arr; simp [scatter]
  | cons i is ih =>
      intro vals arr
      cases vals with
      | nil => simp [scatter]
      | cons v vs =>
          rw [show scatter arr (i :: is) (v :: vs) = scatter (arr.set i v) is vs from rfl,
            ih vs (arr.set i v)]
          simp

theorem getD_set_self (l : List ℚ) {i : ℕ} (v : ℚ) (h : i < l.length) (d : ℚ) :
    (l.set i v).getD i d = v := by
  rw [List.getD_eq_getElem _ _ (by simpa using h)]
  simp

theorem getD_set_ne (l : List ℚ) {i j : ℕ} (v : ℚ) (h : i ≠ j) (d : ℚ) :
    (l.set i v).getD j d = l.getD j d := by
  rcases Nat.lt_or_ge j l.length with hj | hj
  · rw [List.getD_eq_getElem _ _ (by simpa using hj),
      List.getD_eq_getElem _ _ hj]
    exact List.getElem_set_ne h _
  · rw [List.getD_eq_default _ _ (by simpa using hj), List.getD_eq_default _ _ hj]

theorem scatter_getD_not_mem (idxs : List ℕ) : ∀ (vals arr : List ℚ) (i : ℕ),
    i ∉ idxs → (scatter arr idxs vals).getD i 0 = arr.getD i 0 := by
  induction idxs with
  | nil => intro vals arr i _; simp [scatter]
  | cons a as ih =>
      intro vals arr i h
      cases vals with
      | nil => simp [scatter]
      | cons v vs =>
          have hne : a ≠ i := fun hai => h (hai ▸ List.mem_cons_self a as)
          have hni : i ∉ as := fun hmem => h (List.mem_cons_of_mem a hmem)
          rw [show scatter arr (a :: as) (v :: vs) = scatter (arr.set a v) as vs from rfl,
            ih vs (arr.set a v) i hni]
          exact getD_set_ne arr v hne 0

theorem scatter_getD_nodup (idxs : List ℕ) : ∀ (vals arr : List ℚ),
    idxs.Nodup → idxs.length ≤ vals.length →
    ∀ j : ℕ, j < idxs.length → idxs.getD j 0 < arr.length →
    (scatter arr idxs vals).getD (idxs.getD j 0) 0 = vals.getD j 0 := by
  induction idxs with
  | nil => intro vals arr _ _ j hj; simp at hj
  | cons a as ih =>
      intro vals arr hnd hlen j hj hr
      cases vals with
      | nil => simp at hlen
      | cons v vs =>
          rw [show scatter arr (a :: as) (v :: vs) = scatter (arr.set a v) as vs from rfl]
          cases j with
          | zero =>
              have hna : a ∉ as := (List.nodup_cons.mp hnd).1
              simp only [List.getD_cons_zero] at hr ⊢
              rw [scatter_getD_not_mem as vs _ a hna]
              exact getD_set_self arr v hr 0
          | succ j =>
              simp only [List.getD_cons_succ] at hr ⊢
              exact ih vs (arr.set a v) (List.nodup_cons.mp hnd).2
                (by simpa using Nat.le_of_succ_le_succ hlen) j
                (Nat.lt_of_succ_lt_succ (by simpa using hj))
                (by simpa using hr)

theorem scatter_getD_mem (idxs : List ℕ) : ∀ (vals arr : List ℚ) (i : ℕ),
    i ∈ idxs → idxs.length ≤ vals.length → i < arr.length →
    (scatter arr idxs vals).getD i 0 ∈ vals := by
  induction idxs with
  | nil => intro vals arr i hmem; simp at hmem
  | cons a as ih =>
      intro vals arr i hmem hlen hrange
      cases vals with
      | nil => simp at hlen
      | cons v vs =>
          rw [show scatter arr (a :: as) (v :: vs) = scatter (arr.set a v) as vs from rfl]
          by_cases hcase : i ∈ as
          · exact List.mem_cons_of_mem v
              (ih vs (arr.set a v) i hcase
                (by simpa using Nat.le_of_succ_le_succ hlen)
                (by simpa using hrange))
          · have hia : i = a := by
              rcases List.mem_cons.mp hmem with h | h
              · exact h
              · exact absurd h hcase
            subst hia
            rw [scatter_getD_not_mem as vs _ i hcase, getD_set_self arr v hrange 0]
            exact List.mem_cons_self v vs

theorem flatten_length_const {α : Type} (ls : List (List α)) (len_t : ℕ)
    (h : ∀ l ∈ ls, l.length = len_t) : ls.flatten.length = ls.length * len_t := by
  induction ls with
  | nil => simp
  | cons a as ih =>
      have ha : a.length = len_t := h a (List.mem_cons_self a as)
      have hrest := ih (fun l hl => h l (List.mem_cons_of_mem a hl))
      simp [ha, hrest, Nat.succ_mul, Nat.add_comm]

theorem flatten_getD {α : Type} (d : α) (ls : List (List α)) (len_t : ℕ)
    (h : ∀ l ∈ ls, l.length = len_t) :
    ∀ k t : ℕ, k < ls.length → t < len_t →
    ls.flatten.getD (k * len_t + t) d = (ls.getD k []).getD t d := by
  induction ls with
  | nil => intro k t hk _; simp at hk
  | cons a as ih =>
      intro k t hk ht
      have ha : a.length = len_t := h a (List.mem_cons_self a as)
      cases k with
      | zero =>
          simp only [Nat.zero_mul, Nat.zero_add, List.flatten_cons, List.getD_cons_zero]
          exact List.getD_append a as.flatten d t (by omega)
      | succ k =>
          simp only [List.flatten_cons, List.getD_cons_succ]
          have hidx : (k + 1) * len_t + t = a.length + (k * len_t + t) := by
            rw [ha]; ring
          rw [hidx, List.getD_append_right a as.flatten d _ (by omega),
            Nat.add_sub_cancel_left]
          exact ih (fun l hl => h l (List.mem_cons_of_mem a hl)) k t
            (Nat.lt_of_succ_lt_succ (by simpa using hk)) ht

theorem getD_map_lt {α β : Type} (f : α → β) (l : List α) {n : ℕ}
    (h : n < l.length) (d : β) (d2 : α) :
    (l.map f).getD n d = f (l.getD n d2) := by
  rw [List.getD_eq_getElem _ _ (by simpa using h), List.getD_eq_getElem _ _ h]
  simp

theorem getD_replicate_lt {α : Type} (x : α) {n t : ℕ} (ht : t < n) (d : α) :
    (List.replicate n x).getD t d = x := by
  rw [List.getD_eq_getElem _ _ (by simpa using ht)]
  simp

theorem np_repeat_length (xs : List ℚ) (n : ℕ) :
    (np_repeat xs n).length = xs.length * n := by
  unfold np_repeat
  rw [flatten_length_const (xs.map (List.replicate n)) n
    (by intro l hl; rcases List.mem_map.mp hl with ⟨x, _, hx⟩; simp [← hx])]
  simp

theorem np_repeat_getD (xs : List ℚ) (n : ℕ) {k t : ℕ}
    (hk : k < xs.length) (ht : t < n) :
    (np_repeat xs n).getD (k * n + t) 0 = xs.getD k 0 := by
  unfold np_repeat
  rw [flatten_getD (0 : ℚ) (xs.map (List.replicate n)) n
    (by intro l hl; rcases List.mem_map.mp hl with ⟨x, _, hx⟩; simp [← hx])
    k t (by simpa using hk) ht]
  rw [getD_map_lt (List.replicate n) xs hk [] 0]
  exact getD_replicate_lt _ ht 0

theorem getD_mem_of_lt {α : Type} (l : List α) {n : ℕ} (h : n < l.length) (d : α) :
    l.getD n d ∈ l := by
  rw [List.getD_eq_getElem _ _ h]
  exact l.getElem_mem h

theorem resampled_indices_length (ts : List (List ℕ)) (sampled : List ℕ)
    (len_t : ℕ) (hrow : ∀ row ∈ ts, row.length = len_t)
    (hs : ∀ s ∈ sampled, s < ts.length) :
    (resampled_indices ts sampled).length = sampled.length * len_t := by
  unfold resampled_indices
  rw [flatten_length_const _ len_t]
  · simp
  · intro l hl
    rcases List.mem_map.mp hl with ⟨s, hsmem, hx⟩
    rw [← hx]
    exact hrow _ (getD_mem_of_lt ts (hs s hsmem) [])

theorem get_random_trajectory_length (dataset : Dataset) (len_t : ℕ) :
    ∀ (draws traj : List ℕ) (reward : ℚ) (rest : List ℕ),
      get_random_trajectory_reward dataset len_t draws = some ((traj, reward), rest) →
      traj.length = len_t := by
  intro draws
  induction draws with
  | nil => intro traj reward rest h; simp [get_random_trajectory_reward] at h
  | cons s ds ih =>
      intro traj reward rest h
      rw [get_random_trajectory_reward] at h
      by_cases hterm : ((dataset.terminals.drop s).take len_t).any id
      · rw [if_pos hterm] at h
        exact ih traj reward rest h
      · rw [if_neg hterm] at h
        simp only [Option.some.injEq, Prod.mk.injEq] at h
        rw [← h.1.1]
        simp

theorem foldl_min_const (xs : List ℚ) (c : ℚ) (h : ∀ x ∈ xs, x = c) :
    xs.foldl min c = c := by
  induction xs with
  | nil => rfl
  | cons a as ih =>
      rw [List.foldl_cons, h a (List.mem_cons_self a as), min_self]
      exact ih (fun x hx => h x (List.mem_cons_of_mem a hx))

theorem foldl_max_const (xs : List ℚ) (c : ℚ) (h : ∀ x ∈ xs, x = c) :
    xs.foldl max c = c := by
  induction xs with
  | nil => rfl
  | cons a as ih =>
      rw [List.foldl_cons, h a (List.mem_cons_self a as), max_self]
      exact ih (fun x hx => h x (List.mem_cons_of_mem a hx))

/-! ### Claim theorems -/

/-- Claim C4: whenever `get_random_trajectory_reward` returns, the
returned trajectory is exactly the `len_t` contiguous increasing indices
`[start, start + len_t)` for a start drawn from `[0, N - len_t)`, the
terminal slice of that window has no flag set, and the returned reward is
the sum of the dataset rewards over the window. -/
theorem C4_sampled_window (dataset : Dataset) (len_t : ℕ) (hpos : 0 < len_t) :
    ∀ draws : List ℕ,
      (∀ d ∈ draws, d < dataset.observations.length - len_t) →
      ∀ (traj : List ℕ) (reward : ℚ) (rest : List ℕ),
        get_random_trajectory_reward dataset len_t draws = some ((traj, reward), rest) →
        traj.length = len_t ∧
        traj = List.range' (traj.headD 0) len_t ∧
        traj.headD 0 < dataset.observations.length - len_t ∧
        ((dataset.terminals.drop (traj.headD 0)).take len_t).any id = false ∧
        reward = ((dataset.rewards.drop (traj.headD 0)).take len_t).sum := by
  intro draws
  induction draws with
  | nil => intro _ traj reward rest h; simp [get_random_trajectory_reward] at h
  | cons s ds ih =>
      intro hdraws traj reward rest h
      rw [get_random_trajectory_reward] at h
      by_cases hterm : ((dataset.terminals.drop s).take len_t).any id
      · rw [if_pos hterm] at h
        exact ih (fun d hd => hdraws d (List.mem_cons_of_mem s hd)) traj reward rest h
      · rw [if_neg hterm] at h
        simp only [Option.some.injEq, Prod.mk.injEq] at h
        obtain ⟨⟨htraj, hreward⟩, -⟩ := h
        have hhead : traj.headD 0 = s := by
          rw [← htraj]
          obtain ⟨m, hm⟩ := Nat.exists_eq_succ_of_ne_zero (Nat.pos_iff_ne_zero.mp hpos)
          subst hm
          rw [List.range'_succ]
          rfl
        refine ⟨?_, ?_, ?_, ?_, ?_⟩
        · rw [← htraj]; simp
        · rw [hhead, ← htraj]
        · rw [hhead]; exact hdraws s (List.mem_cons_self s ds)
        · rw [hhead]; simpa using hterm
        · rw [hhead, ← hreward]

/-- Witness for C4: on the terminal-free dataset `dsNoTerm` with
`len_t = 2` and draw stream `[1]`, the sampler returns the window
`[1, 2]` with summed reward `5`, satisfying every conclusion. -/
theorem C4_sampled_window_witness :
    ([1, 2] : List ℕ).length = 2 ∧
    ([1, 2] : List ℕ) = List.range' (([1, 2] : List ℕ).headD 0) 2 ∧
    ([1, 2] : List ℕ).headD 0 < dsNoTerm.observations.length - 2 ∧
    ((dsNoTerm.terminals.drop (([1, 2] : List ℕ).headD 0)).take 2).any id = false ∧
    (5 : ℚ) = ((dsNoTerm.rewards.drop (([1, 2] : List ℕ).headD 0)).take 2).sum :=
  C4_sampled_window dsNoTerm 2 (by decide) [1] (by decide) [1, 2] 5 []
    (by norm_num [get_random_trajectory_reward, dsNoTerm, List.range'])

/-- Claim C7, counterexample: on `dsAllTerm` every candidate start in
`[0, N - len_t)` is rejected, and a run of eight retries still produces
no result at all — in particular no `SamplingExhausted` failure value
exists anywhere in the code, which simply keeps looping. -/
theorem C7_counterexample :
    ((List.range (dsAllTerm.observations.length - 2)).all
      (fun s => ((dsAllTerm.terminals.drop s).take 2).any id)) = true ∧
    get_random_trajectory_reward dsAllTerm 2 [0, 1, 0, 1, 0, 1, 0, 1] = none := by
  decide

/-- Claim C7 (amended): the rejection loop has no retry bound and no
failure value; it accepts only when a draw hits a terminal-free window,
so when every candidate window contains a terminal it rejects every draw
of any finite stream — the source loops forever. -/
theorem C7_rejection_never_accepts (dataset : Dataset) (len_t : ℕ)
    (hall : ∀ s ∈ List.range (dataset.observations.length - len_t),
      ((dataset.terminals.drop s).take len_t).any id = true) :
    ∀ draws : List ℕ,
      (∀ d ∈ draws, d < dataset.observations.length - len_t) →
      get_random_trajectory_reward dataset len_t draws = none := by
  intro draws
  induction draws with
  | nil => intro _; rfl
  | cons s ds ih =>
      intro hdraws
      rw [get_random_trajectory_reward,
        if_pos (hall s (List.mem_range.mpr (hdraws s (List.mem_cons_self s ds))))]
      exact ih (fun d hd => hdraws d (List.mem_cons_of_mem s hd))

/-- Witness for the amended C7: a two-draw stream on `dsAllTerm` is
entirely rejected. -/
theorem C7_rejection_never_accepts_witness :
    get_random_trajectory_reward dsAllTerm 2 [0, 1] = none :=
  C7_rejection_never_accepts dsAllTerm 2 (by decide) [0, 1] (by decide)

/-- Claim C8, counterexample: on the all-equal reward dataset
`dsConstReward` the reward range is degenerate (`max = min`), yet
`scale_rewards` raises no `DegenerateRewardRange` error: it applies the
formula with zero denominator and returns an ordinary dataset (under the
total rational division every reward becomes `-1`; the floating-point
source propagates NaN). -/
theorem C8_counterexample :
    pymax dsConstReward.rewards = pymin dsConstReward.rewards ∧
    scale_rewards dsConstReward
      = some { dsConstReward with rewards := [-1, -1, -1] } := by
  constructor
  · decide
  · norm_num [scale_rewards, pymin, pymax, dsConstReward]

/-- Claim C8 (amended): `scale_rewards` contains no degenerate-range
guard.  On any dataset whose rewards are all equal, `max = min`, and the
function still returns a dataset, every reward mapped through the
zero-denominator formula (to `-1` under total division; NaN in floating
point), instead of failing with `DegenerateRewardRange`. -/
theorem C8_scale_rewards_no_guard (dataset : Dataset) (c : ℚ)
    (hne : dataset.rewards ≠ [])
    (hconst : ∀ x ∈ dataset.rewards, x = c) :
    pymax dataset.rewards = pymin dataset.rewards ∧
    scale_rewards dataset
      = some { dataset with rewards := dataset.rewards.map (fun _ => (-1 : ℚ)) } := by
  obtain ⟨y, ys, hys⟩ := List.exists_cons_of_ne_nil hne
  have hy : y = c := hconst y (by rw [hys]; exact List.mem_cons_self y ys)
  have hmin : pymin dataset.rewards = some c := by
    rw [hys]
    show some (ys.foldl min y) = some c
    rw [hy, foldl_min_const ys c
      (fun x hx => hconst x (by rw [hys]; exact List.mem_cons_of_mem y hx))]
  have hmax : pymax dataset.rewards = some c := by
    rw [hys]
    show some (ys.foldl max y) = some c
    rw [hy, foldl_max_const ys c
      (fun x hx => hconst x (by rw [hys]; exact List.mem_cons_of_mem y hx))]
  constructor
  · rw [hmin, hmax]
  · unfold scale_rewards
    rw [hmin, hmax]
    simp only [Option.some.injEq]
    congr 1
    apply List.map_congr_left
    intro x hx
    rw [hconst x hx]
    simp

/-- Witness for the amended C8: the concrete constant-reward dataset. -/
theorem C8_scale_rewards_no_guard_witness :
    pymax dsConstReward.rewards = pymin dsConstReward.rewards ∧
    scale_rewards dsConstReward
      = some { dsConstReward with
          rewards := dsConstReward.rewards.map (fun _ => (-1 : ℚ)) } :=
  C8_scale_rewards_no_guard dsConstReward 5 (by decide) (by decide)

/-- Claim C6 (the code violates it): called with the default empty cache
path — exactly the call made inside `evaluate_latent_model` — the
fresh-generation branch of `generate_pbrl_dataset` still performs its
unconditional `np.savez` write (the recorded write list is `[""]`, the
path handed to `np.savez`, which the library turns into the file
`.npz`), so a persistence write does happen with no cache path given. -/
theorem C6_savez_write_with_empty_path :
    (generate_pbrl_dataset dsNoTerm 1 "" 2 (fun _ => none) [0, 0]).map
        (fun r => r.2)
      = some [""] := rfl

/-- Claim C9: the reward field produced by
`predict_and_label_latent_reward` has the length of `indices` and is
fully determined by the model and the observation/action features at
those indices: two datasets agreeing on observations and actions (and
possibly differing anywhere else, in particular in their reward fields)
yield identical relabeled reward arrays. -/
theorem C9_relabel_rewards_determined (d1 d2 : Dataset)
    (model : List ℚ → ℚ) (indices : List ℕ)
    (hobs : d1.observations = d2.observations)
    (hact : d1.actions = d2.actions) :
    (predict_and_label_latent_reward d1 model indices).rewards.length
      = indices.length ∧
    (predict_and_label_latent_reward d1 model indices).rewards
      = (predict_and_label_latent_reward d2 model indices).rewards := by
  unfold predict_and_label_latent_reward
  constructor
  · simp
  · simp [hobs, hact]

/-- Witness for C9: `dsNoTerm` and `dsAltRewards` share observations and
actions but have different reward fields; relabeling both with the
row-sum model at indices `[0, 2]` gives reward arrays of length 2 and
the same values. -/
theorem C9_relabel_rewards_determined_witness :
    (predict_and_label_latent_reward dsNoTerm (fun row => row.sum) [0, 2]).rewards.length
      = ([0, 2] : List ℕ).length ∧
    (predict_and_label_latent_reward dsNoTerm (fun row => row.sum) [0, 2]).rewards
      = (predict_and_label_latent_reward dsAltRewards (fun row => row.sum) [0, 2]).rewards :=
  C9_relabel_rewards_determined dsNoTerm dsAltRewards (fun row => row.sum) [0, 2] rfl rfl

/-- Claim C10: when a checkpoint exists but its stored epoch does not
satisfy `epoch + 1 == n_epochs`, the loaded parameters are discarded:
the result equals the training loop run from the fresh initialization,
and also equals the run with no checkpoint present at all. -/
theorem C10_stale_checkpoint_discarded {M : Type} (checkpoint : Checkpoint M)
    (n_epochs : ℕ) (fresh_init : M) (step : M → M) (lossOf : M → ℚ)
    (patience : ℕ) (indices : List ℕ)
    (hstale : checkpoint.epoch + 1 ≠ n_epochs) :
    train_latent (some checkpoint) n_epochs fresh_init step lossOf patience indices
      = (train_loop step lossOf patience n_epochs 0 fresh_init none 0, indices) ∧
    train_latent (some checkpoint) n_epochs fresh_init step lossOf patience indices
      = train_latent (none : Option (Checkpoint M)) n_epochs fresh_init step lossOf
          patience indices := by
  constructor <;> simp [train_latent, load_model, hstale]

/-- Witness for C10: a concrete stale checkpoint (stored epoch 0 with
`n_epochs = 2`) over parameter state `ℚ`. -/
theorem C10_stale_checkpoint_discarded_witness :
    train_latent (some (⟨42, 0⟩ : Checkpoint ℚ)) 2 0 (fun m => m + 1) (fun _ => 0) 5 [0, 1]
      = (train_loop (fun m => m + 1) (fun _ => 0) 5 2 0 (0 : ℚ) none 0, [0, 1]) ∧
    train_latent (some (⟨42, 0⟩ : Checkpoint ℚ)) 2 0 (fun m => m + 1) (fun _ => 0) 5 [0, 1]
      = train_latent (none : Option (Checkpoint ℚ)) 2 0 (fun m => m + 1) (fun _ => 0) 5 [0, 1] :=
  C10_stale_checkpoint_discarded ⟨42, 0⟩ 2 0 (fun m => m + 1) (fun _ => 0) 5 [0, 1]
    (by decide)

theorem generate_pairs_spec (dataset : Dataset) (len_t : ℕ) :
    ∀ (num_t : ℕ) (draws : List ℕ) (corpus : PbrlCorpus),
      generate_pairs dataset len_t num_t draws = some corpus →
      corpus.t1s.length = num_t ∧ corpus.t2s.length = num_t ∧
      corpus.ps.length = num_t ∧
      (∀ tr ∈ corpus.t1s, tr.length = len_t) ∧
      (∀ tr ∈ corpus.t2s, tr.length = len_t) ∧
      (∀ p ∈ corpus.ps, 0 ≤ p ∧ p ≤ 1) := by
  intro num_t
  induction num_t with
  | zero =>
      intro draws corpus h
      rw [generate_pairs] at h
      simp only [Option.some.injEq] at h
      rw [← h]
      refine ⟨rfl, rfl, rfl, ?_, ?_, ?_⟩ <;> intro x hx <;> simp at hx
  | succ n ih =>
      intro draws corpus h
      rw [generate_pairs] at h
      cases h1 : get_random_trajectory_reward dataset len_t draws with
      | none => rw [h1] at h; simp at h
      | some v1 =>
          obtain ⟨⟨t1, r1⟩, draws1⟩ := v1
          rw [h1] at h
          dsimp only at h
          cases h2 : get_random_trajectory_reward dataset len_t draws1 with
          | none => rw [h2] at h; simp at h
          | some v2 =>
              obtain ⟨⟨t2, r2⟩, draws2⟩ := v2
              rw [h2] at h
              dsimp only at h
              cases h3 : generate_pairs dataset len_t n draws2 with
              | none => rw [h3] at h; simp at h
              | some rest =>
                  rw [h3] at h
                  dsimp only at h
                  simp only [Option.some.injEq] at h
                  obtain ⟨hl1, hl2, hl3, hm1, hm2, hp⟩ :=
                    ih draws2 rest h3
                  have ht1 : t1.length = len_t :=
                    get_random_trajectory_length dataset len_t draws t1 r1 draws1 h1
                  have ht2 : t2.length = len_t :=
                    get_random_trajectory_length dataset len_t draws1 t2 r2 draws2 h2
                  rw [← h]
                  refine ⟨by simp [hl1], by simp [hl2], by simp [hl3], ?_, ?_, ?_⟩
                  · intro tr htr
                    rcases List.mem_cons.mp htr with hh | hh
                    · rw [hh]; exact ht1
                    · exact hm1 tr hh
                  · intro tr htr
                    rcases List.mem_cons.mp htr with hh | hh
                    · rw [hh]; exact ht2
                    · exact hm2 tr hh
                  · intro p hpm
                    rcases List.mem_cons.mp hpm with hh | hh
                    · rw [hh]
                      constructor
                      · have hd : (0 : ℝ) < Real.exp (r1 : ℝ) + Real.exp (r2 : ℝ) := by
                          positivity
                        exact le_of_lt (div_pos (Real.exp_pos _) hd)
                      · rw [div_le_one (by positivity)]
                        exact le_add_of_nonneg_right (Real.exp_pos _).le
                    · exact hp p hh

/-- Claim C5: a freshly generated pair corpus (the cache lookup misses,
so `generate_pbrl_dataset` takes the generation branch) has `num_t`
trajectory pairs, every trajectory of length `len_t`, `num_t` preference
probabilities, and every probability
`p = np.exp(r1) / (np.exp(r1) + np.exp(r2))` lies in `[0, 1]`. -/
theorem C5_fresh_corpus_shape (dataset : Dataset) (num_t len_t : ℕ)
    (path : String) (fs : String → Option PbrlCorpus) (draws : List ℕ)
    (corpus : PbrlCorpus) (writes : List String)
    (hmiss : fs path = none)
    (hgen : generate_pbrl_dataset dataset num_t path len_t fs draws
      = some (corpus, writes)) :
    corpus.t1s.length = num_t ∧ corpus.t2s.length = num_t ∧
    corpus.ps.length = num_t ∧
    (∀ tr ∈ corpus.t1s, tr.length = len_t) ∧
    (∀ tr ∈ corpus.t2s, tr.length = len_t) ∧
    (∀ p ∈ corpus.ps, 0 ≤ p ∧ p ≤ 1) := by
  unfold generate_pbrl_dataset at hgen
  rw [if_neg (by simp [hmiss])] at hgen
  cases hp : generate_pairs dataset len_t num_t draws with
  | none => rw [hp] at hgen; simp at hgen
  | some c =>
      rw [hp] at hgen
      simp only [Option.map_some', Option.some.injEq, Prod.mk.injEq] at hgen
      exact generate_pairs_spec dataset len_t num_t draws corpus
        (by rw [hp, hgen.1])

/-- Witness for C5: the fresh corpus `corpusW` generated on `dsNoTerm`
with `num_t = 1`, `len_t = 2`, draw stream `[0, 0]` and a missing cache
file. -/
theorem C5_fresh_corpus_shape_witness :
    corpusW.t1s.length = 1 ∧ corpusW.t2s.length = 1 ∧
    corpusW.ps.length = 1 ∧
    (∀ tr ∈ corpusW.t1s, tr.length = 2) ∧
    (∀ tr ∈ corpusW.t2s, tr.length = 2) ∧
    (∀ p ∈ corpusW.ps, 0 ≤ p ∧ p ≤ 1) :=
  C5_fresh_corpus_shape dsNoTerm 1 2 "corpus.npz" (fun _ => none) [0, 0]
    corpusW ["corpus.npz"] rfl
    (by norm_num [generate_pbrl_dataset, generate_pairs,
      get_random_trajectory_reward, dsNoTerm, corpusW, List.range'])

/-- Claim C2, counterexample: with the pair corpus `t1s = [[0], [1]]`,
`t2s = [[1], [2]]` (pair 0 and pair 1 overlap at dataset index 1),
identity resample `[0, 1]`, `len_t = 1` and both Bernoulli outcomes `1`,
the trajectory-2 scatter of pair 0 overwrites dataset index 1 with `-1`
after the trajectory-1 scatter of pair 1 wrote `+1` there, so the output
position of pair 1 trajectory 1 (position `1*1 + 0`) carries `-1`, not
pair 1 signed label `+1`. -/
theorem C2_counterexample :
    (label_by_trajectory_reward dsNoTerm [[0], [1]] [[1], [2]] 1
        [0, 1] [1, 1]).rewards.getD (1 * 1 + 0) 0
      ≠ (bernoulli_trial_one_neg_one [1, 1]).getD 1 0 := by
  norm_num [label_by_trajectory_reward, resampled_indices,
    bernoulli_trial_one_neg_one, np_repeat, scatter, dsNoTerm]

/-- Claim C2 (amended): provided no dataset index is scattered twice —
the concatenation of the resampled trajectory-1 and trajectory-2 index
windows has no duplicates — every output position of a resampled pair
trajectory 1 carries that pair signed Bernoulli label `-1 + 2*outcome`,
and every position of its trajectory 2 carries the negation of that same
label.  (Without the disjointness hypothesis the scatters collide, see
the counterexample.) -/
theorem C2_label_broadcast (dataset : Dataset) (t1s t2s : List (List ℕ))
    (num_t len_t : ℕ) (sampled : List ℕ) (outcomes : List ℚ)
    (hns : sampled.length = num_t) (hno : outcomes.length = num_t)
    (ht1row : ∀ row ∈ t1s, row.length = len_t)
    (ht2row : ∀ row ∈ t2s, row.length = len_t)
    (hs1 : ∀ s ∈ sampled, s < t1s.length)
    (hs2 : ∀ s ∈ sampled, s < t2s.length)
    (hrange : ∀ i ∈ resampled_indices t1s sampled ++ resampled_indices t2s sampled,
      i < dataset.rewards.length)
    (hdisj : (resampled_indices t1s sampled ++ resampled_indices t2s sampled).Nodup)
    (k t : ℕ) (hk : k < num_t) (ht : t < len_t) :
    (label_by_trajectory_reward dataset t1s t2s len_t sampled outcomes).rewards.getD
        (k * len_t + t) 0 = -1 + 2 * outcomes.getD k 0 ∧
    (label_by_trajectory_reward dataset t1s t2s len_t sampled outcomes).rewards.getD
        (num_t * len_t + (k * len_t + t)) 0
      = -(-1 + 2 * outcomes.getD k 0) := by
  have hI1len : (resampled_indices t1s sampled).length = num_t * len_t := by
    rw [resampled_indices_length t1s sampled len_t ht1row hs1, hns]
  have hI2len : (resampled_indices t2s sampled).length = num_t * len_t := by
    rw [resampled_indices_length t2s sampled len_t ht2row hs2, hns]
  have hmuslen : (bernoulli_trial_one_neg_one outcomes).length = num_t := by
    simp [bernoulli_trial_one_neg_one, hno]
  have hRlen : (np_repeat (bernoulli_trial_one_neg_one outcomes) len_t).length
      = num_t * len_t := by
    rw [np_repeat_length, hmuslen]
  have hpos : k * len_t + t < num_t * len_t := by
    have h1 : k * len_t + t < (k + 1) * len_t := by
      rw [Nat.succ_mul]; omega
    exact Nat.lt_of_lt_of_le h1 (Nat.mul_le_mul_right len_t (Nat.succ_le_of_lt hk))
  obtain ⟨hnd1, hnd2, hdis⟩ := List.nodup_append.mp hdisj
  have hrew : (label_by_trajectory_reward dataset t1s t2s len_t sampled outcomes).rewards
      = (resampled_indices t1s sampled ++ resampled_indices t2s sampled).map
          (fun i =>
            (scatter
              (scatter dataset.rewards (resampled_indices t1s sampled)
                (np_repeat (bernoulli_trial_one_neg_one outcomes) len_t))
              (resampled_indices t2s sampled)
              ((np_repeat (bernoulli_trial_one_neg_one outcomes) len_t).map
                (fun x => -1 * x))).getD i 0) := rfl
  have happlen : (resampled_indices t1s sampled ++ resampled_indices t2s sampled).length
      = num_t * len_t + num_t * len_t := by
    rw [List.length_append, hI1len, hI2len]
  have hr1len : (scatter dataset.rewards (resampled_indices t1s sampled)
      (np_repeat (bernoulli_trial_one_neg_one outcomes) len_t)).length
      = dataset.rewards.length :=
    scatter_length _ _ _
  have hmusval : (bernoulli_trial_one_neg_one outcomes).getD k 0
      = -1 + 2 * outcomes.getD k 0 := by
    unfold bernoulli_trial_one_neg_one
    exact getD_map_lt _ outcomes (hno ▸ hk) 0 0
  have hRval : (np_repeat (bernoulli_trial_one_neg_one outcomes) len_t).getD
      (k * len_t + t) 0 = -1 + 2 * outcomes.getD k 0 := by
    rw [np_repeat_getD _ len_t (hmuslen ▸ hk) ht, hmusval]
  constructor
  · -- trajectory-1 block
    rw [hrew, getD_map_lt _ _ (by omega : k * len_t + t
        < (resampled_indices t1s sampled ++ resampled_indices t2s sampled).length) 0 0,
      List.getD_append _ _ 0 _ (hI1len ▸ hpos)]
    have hmem1 : (resampled_indices t1s sampled).getD (k * len_t + t) 0
        ∈ resampled_indices t1s sampled :=
      getD_mem_of_lt _ (hI1len ▸ hpos) 0
    have hnot2 : (resampled_indices t1s sampled).getD (k * len_t + t) 0
        ∉ resampled_indices t2s sampled := fun hmem2 => hdis hmem1 hmem2
    rw [scatter_getD_not_mem _ _ _ _ hnot2,
      scatter_getD_nodup _ _ _ hnd1 (by rw [hI1len, hRlen]) (k * len_t + t)
        (hI1len ▸ hpos)
        (hrange _ (List.mem_append_left _ hmem1)),
      hRval]
  · -- trajectory-2 block
    rw [hrew, getD_map_lt _ _ (by omega : num_t * len_t + (k * len_t + t)
        < (resampled_indices t1s sampled ++ resampled_indices t2s sampled).length) 0 0,
      List.getD_append_right _ _ 0 _ (by rw [hI1len]; omega),
      show num_t * len_t + (k * len_t + t) - (resampled_indices t1s sampled).length
        = k * len_t + t from by rw [hI1len]; omega]
    have hmem2 : (resampled_indices t2s sampled).getD (k * len_t + t) 0
        ∈ resampled_indices t2s sampled :=
      getD_mem_of_lt _ (hI2len ▸ hpos) 0
    rw [scatter_getD_nodup _ _ _ hnd2
        (by rw [hI2len, List.length_map, hRlen]) (k * len_t + t)
        (hI2len ▸ hpos)
        (by rw [hr1len]; exact hrange _ (List.mem_append_right _ hmem2)),
      getD_map_lt _ _ (hRlen ▸ hpos) 0 0, hRval]
    ring

/-- Witness for the amended C2: one pair with disjoint windows `[0, 1]`
and `[2, 3]`, outcome `1` (label `+1`): position `0*2+1` of the output
carries `+1` and position `1*2 + (0*2+1)` carries `-1`. -/
theorem C2_label_broadcast_witness :
    (label_by_trajectory_reward dsNoTerm [[0, 1]] [[2, 3]] 2 [0] [1]).rewards.getD
        (0 * 2 + 1) 0 = -1 + 2 * ([(1 : ℚ)].getD 0 0) ∧
    (label_by_trajectory_reward dsNoTerm [[0, 1]] [[2, 3]] 2 [0] [1]).rewards.getD
        (1 * 2 + (0 * 2 + 1)) 0 = -(-1 + 2 * ([(1 : ℚ)].getD 0 0)) :=
  C2_label_broadcast dsNoTerm [[0, 1]] [[2, 3]] 1 2 [0] [1] (by decide) (by decide)
    (by decide) (by decide) (by decide) (by decide) (by decide) (by decide)
    0 1 (by decide) (by decide)

theorem mem_np_repeat (xs : List ℚ) (n : ℕ) {y : ℚ} (hy : y ∈ np_repeat xs n) :
    y ∈ xs := by
  unfold np_repeat at hy
  rcases List.mem_flatten.mp hy with ⟨l, hl, hyl⟩
  rcases List.mem_map.mp hl with ⟨x, hx, hlx⟩
  rw [← hlx] at hyl
  rw [List.eq_of_mem_replicate hyl]
  exact hx

/-- Claim C3: under the numpy preconditions (corpus rows of length
`len_t`, resample draws in range, scattered indices inside the dataset,
Bernoulli outcomes in `{0, 1}`), the dataset returned by
`label_by_trajectory_reward` has every field of length exactly
`2*num_t*len_t`, the fields mutually index-aligned (position `j` of
every field comes from the same source transition, the one at the
concatenated index list position `j`), and every reward value in
`{-1, +1}`. -/
theorem C3_label_shape (dataset : Dataset) (t1s t2s : List (List ℕ))
    (num_t len_t : ℕ) (sampled : List ℕ) (outcomes : List ℚ)
    (hns : sampled.length = num_t) (hno : outcomes.length = num_t)
    (ht1row : ∀ row ∈ t1s, row.length = len_t)
    (ht2row : ∀ row ∈ t2s, row.length = len_t)
    (hs1 : ∀ s ∈ sampled, s < t1s.length)
    (hs2 : ∀ s ∈ sampled, s < t2s.length)
    (hrange : ∀ i ∈ resampled_indices t1s sampled ++ resampled_indices t2s sampled,
      i < dataset.rewards.length)
    (hout : ∀ mu ∈ outcomes, mu = 0 ∨ mu = 1) :
    (label_by_trajectory_reward dataset t1s t2s len_t sampled outcomes).observations.length
      = 2 * num_t * len_t ∧
    (label_by_trajectory_reward dataset t1s t2s len_t sampled outcomes).actions.length
      = 2 * num_t * len_t ∧
    (label_by_trajectory_reward dataset t1s t2s len_t sampled outcomes).next_observations.length
      = 2 * num_t * len_t ∧
    (label_by_trajectory_reward dataset t1s t2s len_t sampled outcomes).rewards.length
      = 2 * num_t * len_t ∧
    (label_by_trajectory_reward dataset t1s t2s len_t sampled outcomes).terminals.length
      = 2 * num_t * len_t ∧
    (∀ j, j < 2 * num_t * len_t →
      (label_by_trajectory_reward dataset t1s t2s len_t sampled outcomes).observations.getD j []
        = dataset.observations.getD
            ((resampled_indices t1s sampled ++ resampled_indices t2s sampled).getD j 0) [] ∧
      (label_by_trajectory_reward dataset t1s t2s len_t sampled outcomes).actions.getD j []
        = dataset.actions.getD
            ((resampled_indices t1s sampled ++ resampled_indices t2s sampled).getD j 0) [] ∧
      (label_by_trajectory_reward dataset t1s t2s len_t sampled outcomes).next_observations.getD j []
        = dataset.next_observations.getD
            ((resampled_indices t1s sampled ++ resampled_indices t2s sampled).getD j 0) [] ∧
      (label_by_trajectory_reward dataset t1s t2s len_t sampled outcomes).terminals.getD j false
        = dataset.terminals.getD
            ((resampled_indices t1s sampled ++ resampled_indices t2s sampled).getD j 0) false) ∧
    (∀ x ∈ (label_by_trajectory_reward dataset t1s t2s len_t sampled outcomes).rewards,
      x = -1 ∨ x = 1) := by
  have hI1len : (resampled_indices t1s sampled).length = num_t * len_t := by
    rw [resampled_indices_length t1s sampled len_t ht1row hs1, hns]
  have hI2len : (resampled_indices t2s sampled).length = num_t * len_t := by
    rw [resampled_indices_length t2s sampled len_t ht2row hs2, hns]
  have hmuslen : (bernoulli_trial_one_neg_one outcomes).length = num_t := by
    simp [bernoulli_trial_one_neg_one, hno]
  have hRlen : (np_repeat (bernoulli_trial_one_neg_one outcomes) len_t).length
      = num_t * len_t := by
    rw [np_repeat_length, hmuslen]
  have happlen : (resampled_indices t1s sampled ++ resampled_indices t2s sampled).length
      = 2 * num_t * len_t := by
    rw [List.length_append, hI1len, hI2len]; ring
  have hr1len : (scatter dataset.rewards (resampled_indices t1s sampled)
      (np_repeat (bernoulli_trial_one_neg_one outcomes) len_t)).length
      = dataset.rewards.length :=
    scatter_length _ _ _
  have hRvals : ∀ v ∈ np_repeat (bernoulli_trial_one_neg_one outcomes) len_t,
      v = -1 ∨ v = 1 := by
    intro v hv
    have hvm := mem_np_repeat _ _ hv
    unfold bernoulli_trial_one_neg_one at hvm
    rcases List.mem_map.mp hvm with ⟨mu, hmu, hvmu⟩
    rcases hout mu hmu with h0 | h1
    · left; rw [← hvmu, h0]; norm_num
    · right; rw [← hvmu, h1]; norm_num
  have hRnegvals : ∀ v ∈ (np_repeat (bernoulli_trial_one_neg_one outcomes) len_t).map
      (fun x => -1 * x), v = -1 ∨ v = 1 := by
    intro v hv
    rcases List.mem_map.mp hv with ⟨w, hw, hvw⟩
    rcases hRvals w hw with h | h
    · right; rw [← hvw, h]; norm_num
    · left; rw [← hvw, h]; norm_num
  refine ⟨by simp [label_by_trajectory_reward, hI1len, hI2len]; ring,
    by simp [label_by_trajectory_reward, hI1len, hI2len]; ring,
    by simp [label_by_trajectory_reward, hI1len, hI2len]; ring,
    by simp [label_by_trajectory_reward, hI1len, hI2len]; ring,
    by simp [label_by_trajectory_reward, hI1len, hI2len]; ring, ?_, ?_⟩
  · intro j hj
    have hj2 : j < (resampled_indices t1s sampled
        ++ resampled_indices t2s sampled).length := by rw [happlen]; exact hj
    refine ⟨?_, ?_, ?_, ?_⟩ <;>
      exact getD_map_lt _ _ hj2 _ 0
  · intro x hx
    have hx2 : x ∈ (resampled_indices t1s sampled
        ++ resampled_indices t2s sampled).map
          (fun i =>
            (scatter
              (scatter dataset.rewards (resampled_indices t1s sampled)
                (np_repeat (bernoulli_trial_one_neg_one outcomes) len_t))
              (resampled_indices t2s sampled)
              ((np_repeat (bernoulli_trial_one_neg_one outcomes) len_t).map
                (fun x => -1 * x))).getD i 0) := hx
    rcases List.mem_map.mp hx2 with ⟨i, hi, hfx⟩
    by_cases hi2 : i ∈ resampled_indices t2s sampled
    · have hmem := scatter_getD_mem (resampled_indices t2s sampled)
        ((np_repeat (bernoulli_trial_one_neg_one outcomes) len_t).map (fun x => -1 * x))
        (scatter dataset.rewards (resampled_indices t1s sampled)
          (np_repeat (bernoulli_trial_one_neg_one outcomes) len_t)) i hi2
        (by rw [hI2len, List.length_map, hRlen])
        (by rw [hr1len]; exact hrange i (List.mem_append_right _ hi2))
      rw [← hfx]
      exact hRnegvals _ hmem
    · have hi1 : i ∈ resampled_indices t1s sampled := by
        rcases List.mem_append.mp hi with h | h
        · exact h
        · exact absurd h hi2
      rw [← hfx,
        scatter_getD_not_mem _ _ _ _ hi2]
      exact hRvals _
        (scatter_getD_mem (resampled_indices t1s sampled)
          (np_repeat (bernoulli_trial_one_neg_one outcomes) len_t) dataset.rewards i hi1
          (by rw [hI1len, hRlen])
          (hrange i (List.mem_append_left _ hi1)))

/-- Witness for C3: the concrete disjoint instance (`num_t = 1`,
`len_t = 2`): all five fields have length 4, are aligned through the
index list `[0, 1, 2, 3]`, and the output rewards are all in
`{-1, +1}`. -/
theorem C3_label_shape_witness :
    (label_by_trajectory_reward dsNoTerm [[0, 1]] [[2, 3]] 2 [0] [1]).observations.length
      = 2 * 1 * 2 ∧
    (label_by_trajectory_reward dsNoTerm [[0, 1]] [[2, 3]] 2 [0] [1]).actions.length
      = 2 * 1 * 2 ∧
    (label_by_trajectory_reward dsNoTerm [[0, 1]] [[2, 3]] 2 [0] [1]).next_observations.length
      = 2 * 1 * 2 ∧
    (label_by_trajectory_reward dsNoTerm [[0, 1]] [[2, 3]] 2 [0] [1]).rewards.length
      = 2 * 1 * 2 ∧
    (label_by_trajectory_reward dsNoTerm [[0, 1]] [[2, 3]] 2 [0] [1]).terminals.length
      = 2 * 1 * 2 ∧
    (∀ j, j < 2 * 1 * 2 →
      (label_by_trajectory_reward dsNoTerm [[0, 1]] [[2, 3]] 2 [0] [1]).observations.getD j []
        = dsNoTerm.observations.getD
            ((resampled_indices [[0, 1]] [0] ++ resampled_indices [[2, 3]] [0]).getD j 0) [] ∧
      (label_by_trajectory_reward dsNoTerm [[0, 1]] [[2, 3]] 2 [0] [1]).actions.getD j []
        = dsNoTerm.actions.getD
            ((resampled_indices [[0, 1]] [0] ++ resampled_indices [[2, 3]] [0]).getD j 0) [] ∧
      (label_by_trajectory_reward dsNoTerm [[0, 1]] [[2, 3]] 2 [0] [1]).next_observations.getD j []
        = dsNoTerm.next_observations.getD
            ((resampled_indices [[0, 1]] [0] ++ resampled_indices [[2, 3]] [0]).getD j 0) [] ∧
      (label_by_trajectory_reward dsNoTerm [[0, 1]] [[2, 3]] 2 [0] [1]).terminals.getD j false
        = dsNoTerm.terminals.getD
            ((resampled_indices [[0, 1]] [0] ++ resampled_indices [[2, 3]] [0]).getD j 0) false) ∧
    (∀ x ∈ (label_by_trajectory_reward dsNoTerm [[0, 1]] [[2, 3]] 2 [0] [1]).rewards,
      x = -1 ∨ x = 1) :=
  C3_label_shape dsNoTerm [[0, 1]] [[2, 3]] 1 2 [0] [1] (by decide) (by decide)
    (by decide) (by decide) (by decide) (by decide) (by decide) (by decide)

theorem cross_entropy_loss2_false (z0 z1 : ℝ) :
    cross_entropy_loss2 z0 z1 false
      = -Real.log (Real.exp z0 / (Real.exp z0 + Real.exp z1)) := rfl

theorem spec_cross_entropy2_false (q0 q1 : ℝ) :
    spec_cross_entropy2 q0 q1 false = -Real.log q0 := rfl

/-- Claim C1 (the code violates it): the loss used by `train_latent` is
NOT the cross-entropy between the softmax preference distribution of the
summed latent rewards and the binary target.  The source feeds the
softmax probabilities to `nn.CrossEntropyLoss`, which itself applies a
softmax, so the optimized quantity is the cross-entropy of a
double-softmax.  With one pair, one timestep, segment sums `0` and `1`
and target `0`, the two quantities differ. -/
theorem C1_loss_is_not_claimed_cross_entropy :
    train_latent_epoch_loss c1_model 1 1 (fun _ => false)
      ≠ spec_epoch_loss c1_model 1 1 (fun _ => false) := by
  have e1 : (0 : ℝ) < Real.exp 1 := Real.exp_pos 1
  have hs0 : latent_r_sum c1_model 1 0 0 = 0 := by
    norm_num [latent_r_sum, c1_model]
  have hs1 : latent_r_sum c1_model 1 0 1 = 1 := by
    norm_num [latent_r_sum, c1_model]
  have hq0 : (softmax2 0 1).1 = 1 / (1 + Real.exp 1) := by
    show Real.exp 0 / (Real.exp 0 + Real.exp 1) = 1 / (1 + Real.exp 1)
    rw [Real.exp_zero]
  have hq1 : (softmax2 0 1).2 = Real.exp 1 / (1 + Real.exp 1) := by
    show Real.exp 1 / (Real.exp 0 + Real.exp 1) = Real.exp 1 / (1 + Real.exp 1)
    rw [Real.exp_zero]
  have hL : train_latent_epoch_loss c1_model 1 1 (fun _ => false)
      = -Real.log (Real.exp ((softmax2 0 1).1)
          / (Real.exp ((softmax2 0 1).1) + Real.exp ((softmax2 0 1).2))) := by
    unfold train_latent_epoch_loss
    rw [Finset.sum_range_one, hs0, hs1, cross_entropy_loss2_false]
    norm_num
  have hR : spec_epoch_loss c1_model 1 1 (fun _ => false)
      = -Real.log ((softmax2 0 1).1) := by
    unfold spec_epoch_loss
    rw [Finset.sum_range_one, hs0, hs1, spec_cross_entropy2_false]
    norm_num
  intro heq
  rw [hL, hR, hq0, hq1] at heq
  have hS : (0 : ℝ) < 1 + Real.exp 1 := by positivity
  have hXpos : (0 : ℝ) < Real.exp (1 / (1 + Real.exp 1))
      / (Real.exp (1 / (1 + Real.exp 1)) + Real.exp (Real.exp 1 / (1 + Real.exp 1))) := by
    positivity
  have hYpos : (0 : ℝ) < 1 / (1 + Real.exp 1) := by positivity
  have hlog := neg_inj.mp heq
  have hXY := Real.log_injOn_pos (Set.mem_Ioi.mpr hXpos) (Set.mem_Ioi.mpr hYpos) hlog
  have hD : (0 : ℝ) < Real.exp (1 / (1 + Real.exp 1))
      + Real.exp (Real.exp 1 / (1 + Real.exp 1)) := by positivity
  have h2 := (div_eq_div_iff hD.ne' hS.ne').mp hXY
  have h3 : Real.exp (1 / (1 + Real.exp 1)) * Real.exp 1
      = Real.exp (Real.exp 1 / (1 + Real.exp 1)) := by nlinarith [h2]
  have h4 : Real.exp (1 / (1 + Real.exp 1) + 1)
      = Real.exp (Real.exp 1 / (1 + Real.exp 1)) := by
    rw [Real.exp_add]; exact h3
  have h5 : 1 / (1 + Real.exp 1) + 1 = Real.exp 1 / (1 + Real.exp 1) :=
    Real.exp_injective h4
  have h6 : (1 : ℝ) + (1 + Real.exp 1) = Real.exp 1 := by
    field_simp at h5
    linarith
  linarith
